import Mathlib

/-!
Verification of the questionnaire-analysis module (`hw5.py`).

The table has columns `age`, `email`, `q1`..`q5`; cells of the numeric
columns may be missing (NaN), modelled as `Option ℚ`.  The four operations
(`show_age_distrib`, `remove_rows_without_mail`, `fill_na_with_mean`,
`score_subjects`) are embedded as pure functions over lists of rows, with
`Option` marking the computations that can raise in the source (string
index out of range, impossible NumPy broadcast, unsafe `astype` cast).
-/

namespace HW5

/-- One row of the questionnaire table.  Numeric cells are `Option ℚ`
(`none` = NaN); `email` is the raw string. -/
structure Row where
  age : Option ℚ
  email : String
  q1 : Option ℚ
  q2 : Option ℚ
  q3 : Option ℚ
  q4 : Option ℚ
  q5 : Option ℚ
  deriving DecidableEq

/-- The loaded table: an ordered list of rows (row `i` has pandas index `i`). -/
abbrev Table : Type := List Row

/-- First index of `c` in a list, or `none` (the core of Python `str.find`). -/
def firstIdx? {α : Type} [BEq α] (c : α) : List α → Option ℕ
  | [] => none
  | a :: l => if a == c then some 0 else (firstIdx? c l).map (· + 1)

/-- Python `s.find(c)`: first index of `c` in `s`, or `-1` when absent. -/
def strFind (s : String) (c : Char) : ℤ :=
  match firstIdx? c s.toList with
  | some i => (i : ℤ)
  | none => -1

/-- Python `s.rfind(c)`: last index of `c` in `s`, or `-1` when absent. -/
def strRfind (s : String) (c : Char) : ℤ :=
  match firstIdx? c s.toList.reverse with
  | some i => ((s.toList.length - 1 - i : ℕ) : ℤ)
  | none => -1

/-- Python `len(email)` as an integer (the pandas `str.len()` column). -/
def emailLen (s : String) : ℤ := s.length

/-- Python positive indexing `s[i]`: the character when `i < len(s)`,
`none` when the access would raise `IndexError`. -/
def charAt? (s : String) (i : ℕ) : Option Char := s.toList.get? i

/-- `cond1` of the source: the first and last `@` coincide (exactly one `@`),
its index is positive and below the string length. -/
def cond1 (s : String) : Bool :=
  decide (strRfind s ('@') = strFind s ('@')) &&
    decide (strFind s ('@') > 0) &&
    decide (strFind s ('@') < emailLen s)

/-- `cond2` of the source: the first `.` has positive index and the last `.`
has index below the string length. -/
def cond2 (s : String) : Bool :=
  decide (strFind s ('.') > 0) && decide (strRfind s ('.') < emailLen s)

/-- `cond3` of the source: `email[find_first_at + 1] != '.'`; `none` when the
indexing raises (Python `email[i]` with `i = len(email)`, e.g. a trailing `@`,
or `email[0]` on an empty string). -/
def cond3 (s : String) : Option Bool :=
  (charAt? s ((strFind s ('@')) + 1).toNat).map (fun c => c != ('.'))

/-- The combined row-validity value `cond1 & cond2 & cond3`; `none` when
computing `cond3` raises. -/
def validEmail (s : String) : Option Bool :=
  (cond3 s).map (fun c3 => cond1 s && cond2 s && c3)

/-- The source's `for email, index in zip(...)` loop building the `cond3`
list: it evaluates `validEmail` row by row and aborts on the first
`IndexError`. -/
def condList : Table → Option (List Bool)
  | [] => some []
  | r :: t =>
    match validEmail r.email, condList t with
    | some b, some bs => some (b :: bs)
    | _, _ => none

/-- `remove_rows_without_mail`: boolean-mask the rows by the validity flags
(`self.data[valid_email]` followed by `reset_index(drop=True)`, which in the
list model is just the filtered list); `none` when the flag loop raises. -/
def remove_rows_without_mail (t : Table) : Option Table :=
  match condList t with
  | none => none
  | some flags => some (((t.zip flags).filter (fun p => p.2)).map (fun p => p.1))

/-- Mean of a list of values; `none` on the empty list (pandas `mean` with
`skipna=True` yields NaN when no value is present). -/
def listMean (l : List ℚ) : Option ℚ :=
  if l.length = 0 then none else some (l.sum / (l.length : ℚ))

/-- The five question cells of a row, in column order `q1..q5`
(the slice `self.data.loc[:, "q1":"q5"]`). -/
def qcells (r : Row) : List (Option ℚ) := [r.q1, r.q2, r.q3, r.q4, r.q5]

/-- The present (non-NaN) grades of a row. -/
def presentVals (r : Row) : List ℚ := (qcells r).filterMap id

/-- Row mean of the present grades (`.mean(1)`, which skips NaNs). -/
def rowMean (r : Row) : Option ℚ := listMean (presentVals r)

/-- Number of missing grades of a row (`.isna().sum(1)`). -/
def nanCount (r : Row) : ℕ := ((qcells r).filter (fun c => c.isNone)).length

/-- `fillna` on one cell: a present value stays, a missing one receives the
fill value (which may itself be missing, in which case the cell stays NaN). -/
def fillCell (m : Option ℚ) (c : Option ℚ) : Option ℚ :=
  match c with
  | some v => some v
  | none => m

/-- `fillna(value = all_means_df)` on one row: each `q` cell is filled with
that row's mean of present grades; the other columns are untouched. -/
def fillRow (r : Row) : Row :=
  { r with
    q1 := fillCell (rowMean r) r.q1
    q2 := fillCell (rowMean r) r.q2
    q3 := fillCell (rowMean r) r.q3
    q4 := fillCell (rowMean r) r.q4
    q5 := fillCell (rowMean r) r.q5 }

/-- `fill_na_with_mean`: the source broadcasts the row-means vector to the
hardcoded shape `(5, 100)` (`np.broadcast_to(all_means_vector, (5, 100))`),
which NumPy accepts only when the vector's length is `100` or `1`; any other
row count raises, modelled as `none`.  On success the table is `fillna`-ed
row by row and the second component lists the 0-based indices of the rows
that had at least one missing grade (`isna().sum(1) > 0`). -/
def fill_na_with_mean (t : Table) : Option (Table × List ℕ) :=
  if t.length = 100 ∨ t.length = 1 then
    some (t.map fillRow,
      ((t.enum).filter (fun p => decide (nanCount p.2 > 0))).map (fun p => p.1))
  else none

/-- The pandas `astype('UInt8')` on one cell of the floored-mean column:
NaN becomes `<NA>`; a numeric value must survive the cast to `uint8`
unchanged (pandas' safe cast), i.e. lie in `[0, 255]`, otherwise the whole
conversion raises. -/
def castUInt8 (x : Option ℤ) : Option (Option ℤ) :=
  match x with
  | none => some none
  | some v => if 0 ≤ v ∧ v ≤ 255 then some (some v) else none

/-- `astype('UInt8')` over the whole column; `none` when any cell fails the
safe cast. -/
def castList : List (Option ℤ) → Option (List (Option ℤ))
  | [] => some []
  | x :: l =>
    match castUInt8 x, castList l with
    | some y, some ys => some (y :: ys)
    | _, _ => none

/-- `score_subjects`: the score column is the row mean of `q1..q5`
(`mean(1)`), floored (`apply(np.floor)`), cast to `UInt8`
(`astype('UInt8')`, which raises when a value falls outside `[0, 255]`),
then voided (`score[mask_nan] = None`) on the rows whose count of missing
grades exceeds `maximal_nans_per_sub`.  The returned table pairs each
original row with its score cell. -/
def score_subjects (t : Table) (maximal_nans_per_sub : ℕ) :
    Option (List (Row × Option ℤ)) :=
  match castList (t.map (fun r => (rowMean r).map Int.floor)) with
  | none => none
  | some casted =>
    some (t.zip
      ((casted.zip (t.map nanCount)).map
        (fun p => if p.2 > maximal_nans_per_sub then none else p.1)))

/-- NumPy histogram binning with edges `0, 10, ..., 100`: a value in
`[0, 100]` lands in bin `min ⌊a/10⌋ 9` (half-open bins, the last bin closed
on both ends); values outside `[0, 100]` and NaNs land in no bin. -/
def binIndex (a : ℚ) : Option ℕ :=
  if 0 ≤ a ∧ a ≤ 100 then some (min (Int.floor (a / 10)).toNat 9) else none

/-- The ten bin counts of `plt.hist(ages, bins = np.linspace(0, 100, 11))`. -/
def histCounts (ages : List ℚ) : List ℕ :=
  (List.range 10).map
    (fun i => ((ages.filterMap binIndex).filter (fun b => b == i)).length)

/-- `show_age_distrib`: the histogram counts over the `age` column and the
eleven bin edges `0, 10, ..., 100` (`np.linspace(0, 100, 11)`). -/
def show_age_distrib (t : Table) : List ℕ × List ℚ :=
  (histCounts (t.filterMap (fun r => r.age)),
   (List.range 11).map (fun i => ((10 * i : ℕ) : ℚ)))

/-- The mutable state of a `QuestionnaireAnalysis` object: the attribute
`self.data` set once by `read_data` at construction. -/
structure AnalysisState where
  data : Table
  deriving DecidableEq

/-- The four public operations (method calls) of the object. -/
inductive AnalysisOp where
  | showAgeDistrib
  | removeRowsWithoutMail
  | fillNaWithMean
  | scoreSubjects (maximal_nans_per_sub : ℕ)
  deriving DecidableEq

/-- The value a method call returns (the failing computations return the
`none` of their `Option`). -/
inductive AnalysisOut where
  | hist (h : List ℕ × List ℚ)
  | filtered (t : Option Table)
  | imputed (x : Option (Table × List ℕ))
  | scored (s : Option (List (Row × Option ℤ)))
  deriving DecidableEq

/-- One method call: every method only reads `self.data` (the source never
reassigns the attribute outside `read_data`; `remove_rows_without_mail`
builds `self.data[valid_email]`, `fill_na_with_mean` calls the non-inplace
`fillna`, and `score_subjects` works on `self.data.copy()`), so the state
is passed through unchanged next to the returned value. -/
def runOp (s : AnalysisState) (op : AnalysisOp) : AnalysisState × AnalysisOut :=
  match op with
  | .showAgeDistrib => (⟨s.data⟩, .hist (show_age_distrib s.data))
  | .removeRowsWithoutMail => (⟨s.data⟩, .filtered (remove_rows_without_mail s.data))
  | .fillNaWithMean => (⟨s.data⟩, .imputed (fill_na_with_mean s.data))
  | .scoreSubjects m => (⟨s.data⟩, .scored (score_subjects s.data m))

/-- A sequence of method calls, threading the object state. -/
def runOps (s : AnalysisState) (ops : List AnalysisOp) : AnalysisState :=
  ops.foldl (fun st op => (runOp st op).1) s

/-!  A second, column-generic table model for the error-handling claim:
here a table carries its list of column labels, so operations on tables
that lack a column can be stated, and the operations return an explicit
error kind so that a missing-column `KeyError` is distinguishable from the
other raises. -/

/-- One cell of the column-generic table: dataframes are heterogeneous, so
a cell is either a numeric value (possibly NaN) or a text value (the
`email` column). -/
inductive Cell where
  | num (v : Option ℚ)
  | str (s : String)
  deriving DecidableEq

/-- A row of the generic model: an association list from column label to
cell; a label absent from the row reads as a NaN cell. -/
abbrev DynRow : Type := List (String × Cell)

/-- A table with explicit column labels. -/
structure DynTable where
  cols : List String
  rows : List DynRow
  deriving DecidableEq

/-- The numeric reading of a cell: a text cell contributes no value (pandas
drops non-numeric columns from a row `mean`). -/
def cellNum : Cell → Option ℚ
  | Cell.num v => v
  | Cell.str _ => none

/-- Whether a cell is missing for `isna`: only an actual NaN is NA; a text
cell is not. -/
def cellIsNA : Cell → Bool
  | Cell.num none => true
  | _ => false

/-- The raises the four operations can produce in the source: `KeyError`
for a missing column label or slice bound, `IndexError` for the unguarded
string indexing, `TypeError` for subscripting a non-string email cell, the
unsafe `astype('UInt8')` cast failure, and the impossible
`np.broadcast_to`. -/
inductive PdError where
  | keyError
  | indexError
  | typeError
  | castError
  | broadcastError
  deriving DecidableEq

/-- Modelled from the spec: the pandas JSON reader called by `read_data` is
library code not under `src`; per the spec it fails (a `DataLoadError`
surfaced at construction) exactly when the path is missing or unreadable or
the content is not parseable as tabular JSON.  `none` abstracts such an
unloadable source, `some` a source parsed into a table. -/
def read_data (source : Option DynTable) : Option DynTable := source

/-- Pandas `is_monotonic_increasing` on the column labels (non-strict,
lexicographic string order). -/
def isMonoInc : List String → Bool
  | [] => true
  | [_] => true
  | a :: b :: l => decide (a ≤ b) && isMonoInc (b :: l)

/-- Pandas `is_monotonic_decreasing` on the column labels. -/
def isMonoDec : List String → Bool
  | [] => true
  | [_] => true
  | a :: b :: l => decide (b ≤ a) && isMonoDec (b :: l)

/-- Pandas `Index.get_slice_bound(label, side)`: the position of the label
when present (`get_loc`, plus one on the right side); when absent, the
`searchsorted` insertion point on a monotonically increasing index (the
count of smaller labels on the left side, of not-greater labels on the
right), the mirrored fallback on a monotonically decreasing index, and
otherwise `KeyError` (`none`). -/
def sliceBound (cols : List String) (lab : String) (sideRight : Bool) : Option ℕ :=
  match firstIdx? lab cols with
  | some i => some (if sideRight then i + 1 else i)
  | none =>
    if isMonoInc cols then
      some (if sideRight then cols.countP (fun c => decide (c ≤ lab))
            else cols.countP (fun c => decide (c < lab)))
    else if isMonoDec cols then
      some (if sideRight then cols.length - cols.countP (fun c => decide (c < lab))
            else cols.length - cols.countP (fun c => decide (c ≤ lab)))
    else none

/-- Pandas label slicing `.loc[:, a:b]` over the columns: the span between
the two slice bounds; `KeyError` (`none`) exactly when a bound raises. -/
def locSlice (cols : List String) (a b : String) : Option (List String) :=
  match sliceBound cols a false, sliceBound cols b true with
  | some i, some j => some ((cols.drop i).take (j - i))
  | _, _ => none

/-- The cells of one row under the selected columns. -/
def rowCells (sel : List String) (r : DynRow) : List Cell :=
  sel.map (fun c => (r.lookup c).getD (Cell.num none))

/-- The numeric values of one row under the selected columns. -/
def rowValsD (sel : List String) (r : DynRow) : List (Option ℚ) :=
  (rowCells sel r).map cellNum

/-- The count of missing values of one row under the selected columns
(`isna().sum(1)`). -/
def nanCountD (sel : List String) (r : DynRow) : ℕ :=
  ((rowCells sel r).filter cellIsNA).length

/-- Column access `self.data[c]`: `KeyError` (modelled as `none`) when the
label is absent from the table's columns. -/
def getColC (t : DynTable) (c : String) : Option (List Cell) :=
  if t.cols.contains c then
    some (t.rows.map (fun r => (r.lookup c).getD (Cell.num none)))
  else none

/-- `show_age_distrib` in the column-generic model: reads
`self.data["age"]` (`KeyError` when the column is absent) and computes the
fixed-edge histogram over the numeric ages. -/
def show_age_distrib_dyn (t : DynTable) : Except PdError (List ℕ × List ℚ) :=
  match getColC t ("age") with
  | none => Except.error PdError.keyError
  | some ages =>
    Except.ok (histCounts ((ages.map cellNum).filterMap id),
      (List.range 11).map (fun i => ((10 * i : ℕ) : ℚ)))

/-- The `cond3` loop of `remove_rows_without_mail` over the email cells:
string indexing out of range raises `IndexError`, subscripting a
non-string cell raises `TypeError`, and the loop stops at the first
raising row. -/
def condListDyn : List Cell → Except PdError (List Bool)
  | [] => Except.ok []
  | c :: l =>
    match c with
    | Cell.str s =>
      match validEmail s, condListDyn l with
      | some b, Except.ok bs => Except.ok (b :: bs)
      | none, _ => Except.error PdError.indexError
      | some _, Except.error e => Except.error e
    | Cell.num _ => Except.error PdError.typeError

/-- `remove_rows_without_mail` in the column-generic model: reads
`self.data['email']` (`KeyError` when the column is absent), computes the
validity flags (the `cond3` loop can raise) and keeps the flagged rows. -/
def remove_rows_without_mail_dyn (t : DynTable) : Except PdError (List DynRow) :=
  match getColC t ("email") with
  | none => Except.error PdError.keyError
  | some ecol =>
    match condListDyn ecol with
    | Except.error e => Except.error e
    | Except.ok flags =>
      Except.ok (((t.rows.zip flags).filter (fun p => p.2)).map (fun p => p.1))

/-- The literal column labels of `all_means_df`
(`pd.DataFrame(..., columns = ['q1','q2','q3','q4','q5'])`). -/
def qLabels : List String := [("q1"), ("q2"), ("q3"), ("q4"), ("q5")]

/-- `fillna(value = all_means_df)` on one labelled cell: only a NaN cell of
a column carrying one of the literal labels `q1..q5` receives the row's
fill value (itself possibly missing); every other cell is untouched. -/
def fillCellDyn (m : Option ℚ) (c : String × Cell) : String × Cell :=
  if qLabels.contains c.1 then
    match c.2 with
    | Cell.num none => (c.1, Cell.num m)
    | _ => c
  else c

/-- `fill_na_with_mean` in the column-generic model: slices
`self.data.loc[:, "q1":"q5"]` (`KeyError` exactly when a slice bound
raises), computes the row means over the selection, broadcasts them to the
hardcoded shape `(5, 100)` (raising unless the row count is `100` or `1`)
and fills the NaN cells of the `q1..q5`-labelled columns; the second
component lists the indices of the rows with at least one missing value in
the selection. -/
def fill_na_with_mean_dyn (t : DynTable) : Except PdError (List DynRow × List ℕ) :=
  match locSlice t.cols ("q1") ("q5") with
  | none => Except.error PdError.keyError
  | some sel =>
    if t.rows.length = 100 ∨ t.rows.length = 1 then
      Except.ok
        (t.rows.map (fun r =>
          r.map (fillCellDyn (listMean ((rowValsD sel r).filterMap id)))),
         ((t.rows.enum).filter (fun p => decide (nanCountD sel p.2 > 0))).map
           (fun p => p.1))
    else Except.error PdError.broadcastError

/-- `score_subjects` in the column-generic model: slices
`self.data.loc[:, "q1":"q5"]` (`KeyError` exactly when a slice bound
raises), then counts NaNs, takes row means, floors, casts to `UInt8`
(raising on an out-of-range value) and voids the rows over the threshold,
exactly as the fixed-schema version. -/
def score_subjects_dyn (t : DynTable) (maximal_nans_per_sub : ℕ) :
    Except PdError (List (DynRow × Option ℤ)) :=
  match locSlice t.cols ("q1") ("q5") with
  | none => Except.error PdError.keyError
  | some sel =>
    match castList (t.rows.map
        (fun r => (listMean ((rowValsD sel r).filterMap id)).map Int.floor)) with
    | none => Except.error PdError.castError
    | some casted =>
      Except.ok (t.rows.zip
        ((casted.zip (t.rows.map (fun r => nanCountD sel r))).map
          (fun p => if p.2 > maximal_nans_per_sub then none else p.1)))

/-! ### Helper lemmas -/

theorem firstIdx?_lt_length {α : Type} [BEq α] {c : α} :
    ∀ {l : List α} {i : ℕ}, firstIdx? c l = some i → i < l.length := by
  intro l
  induction l with
  | nil => intro i h; simp [firstIdx?] at h
  | cons a l ih =>
    intro i h
    by_cases hac : (a == c) = true
    · simp [firstIdx?, hac] at h
      simp only [List.length_cons]
      omega
    · simp [firstIdx?, hac] at h
      obtain ⟨j, hj, hij⟩ := h
      have := ih hj
      simp only [List.length_cons]
      omega

theorem firstIdx?_mem {α : Type} [BEq α] [LawfulBEq α] {c : α} :
    ∀ {l : List α} {i : ℕ}, firstIdx? c l = some i → c ∈ l := by
  intro l
  induction l with
  | nil => intro i h; simp [firstIdx?] at h
  | cons a l ih =>
    intro i h
    by_cases hac : (a == c) = true
    · exact (eq_of_beq hac) ▸ List.mem_cons_self a l
    · simp [firstIdx?, hac] at h
      obtain ⟨j, hj, _⟩ := h
      exact List.mem_cons_of_mem a (ih hj)

theorem firstIdx?_eq_none {α : Type} [BEq α] [LawfulBEq α] {c : α} {l : List α}
    (h : c ∉ l) : firstIdx? c l = none := by
  cases hf : firstIdx? c l with
  | none => rfl
  | some i => exact absurd (firstIdx?_mem hf) h

theorem strFind_lt_emailLen (s : String) (c : Char) : strFind s c < emailLen s := by
  unfold strFind emailLen
  cases hf : firstIdx? c s.toList with
  | none =>
    simp only [hf]
    omega
  | some i =>
    have hi : i < s.toList.length := firstIdx?_lt_length hf
    have hlen : s.toList.length = s.length := rfl
    simp only [hf]
    omega

theorem strRfind_lt_emailLen (s : String) (c : Char) : strRfind s c < emailLen s := by
  unfold strRfind emailLen
  cases hf : firstIdx? c s.toList.reverse with
  | none =>
    simp only [hf]
    omega
  | some i =>
    have hi : i < s.toList.reverse.length := firstIdx?_lt_length hf
    have hlen : s.toList.length = s.length := rfl
    simp only [List.length_reverse] at hi
    simp only [hf]
    omega

theorem condList_filter :
    ∀ {t : Table} {flags : List Bool}, condList t = some flags →
      ((t.zip flags).filter (fun p => p.2)).map (fun p => p.1)
        = t.filter (fun r => (validEmail r.email).getD false) := by
  intro t
  induction t with
  | nil =>
    intro flags h
    simp [condList] at h
    subst h
    rfl
  | cons r t ih =>
    intro flags h
    unfold condList at h
    cases hv : validEmail r.email with
    | none => rw [hv] at h; exact absurd h (by simp)
    | some b =>
      rw [hv] at h
      cases hc : condList t with
      | none => rw [hc] at h; exact absurd h (by simp)
      | some bs =>
        rw [hc] at h
        have hflags : flags = b :: bs := by
          cases h
          rfl
        subst hflags
        have hrest := ih hc
        cases b with
        | true => simp [List.filter_cons, hv, hrest]
        | false => simp [List.filter_cons, hv, hrest]

theorem condList_mem_isSome :
    ∀ {t : Table} {flags : List Bool}, condList t = some flags →
      ∀ r ∈ t, (validEmail r.email).isSome := by
  intro t
  induction t with
  | nil => intro flags _ r hr; exact absurd hr (List.not_mem_nil r)
  | cons a t ih =>
    intro flags h r hr
    unfold condList at h
    cases hv : validEmail a.email with
    | none => rw [hv] at h; exact absurd h (by simp)
    | some b =>
      rw [hv] at h
      cases hc : condList t with
      | none => rw [hc] at h; exact absurd h (by simp)
      | some bs =>
        cases List.mem_cons.mp hr with
        | inl he => rw [he, hv]; rfl
        | inr hm => exact ih hc r hm

theorem condList_isSome :
    ∀ {t : Table}, (∀ r ∈ t, (validEmail r.email).isSome) → (condList t).isSome := by
  intro t
  induction t with
  | nil => intro _; rfl
  | cons a t ih =>
    intro h
    have ha : (validEmail a.email).isSome := h a (List.mem_cons_self a t)
    cases hv : validEmail a.email with
    | none => rw [hv] at ha; exact absurd ha (by simp)
    | some b =>
      have ht : (condList t).isSome := ih (fun r hr => h r (List.mem_cons_of_mem a hr))
      cases hc : condList t with
      | none => rw [hc] at ht; exact absurd ht (by simp)
      | some bs => simp [condList, hv, hc]

theorem remove_eq_filter {t t' : Table}
    (h : remove_rows_without_mail t = some t') :
    t' = t.filter (fun r => (validEmail r.email).getD false) := by
  unfold remove_rows_without_mail at h
  cases hc : condList t with
  | none => rw [hc] at h; exact absurd h (by simp)
  | some flags =>
    rw [hc] at h
    have := condList_filter hc
    cases h
    exact this

theorem remove_safe {t t' : Table}
    (h : remove_rows_without_mail t = some t') :
    ∀ r ∈ t, (validEmail r.email).isSome := by
  unfold remove_rows_without_mail at h
  cases hc : condList t with
  | none => rw [hc] at h; exact absurd h (by simp)
  | some flags => exact condList_mem_isSome hc

/-- The validity rule exactly as the claim states it (the reference point of
the refinement check): exactly one `@` at an index strictly between `0` and
the last index, at least one `.` with first occurrence strictly after
position `0` and last occurrence strictly before the final index, and the
character after the `@` not a `.`. -/
def specEmailRule (s : String) : Bool :=
  decide (strRfind s ('@') = strFind s ('@')) &&
    decide (strFind s ('@') > 0) &&
    decide (strFind s ('@') < emailLen s - 1) &&
    decide (strFind s ('.') > 0) &&
    decide (strRfind s ('.') < emailLen s - 1) &&
    (match charAt? s ((strFind s ('@')) + 1).toNat with
     | some c => c != ('.')
     | none => false)

/-- The rule the code actually enforces on the rows it keeps: exactly one
`@` at a positive index, first `.` at a positive index, and the character
after the `@` not a `.`; the two `< length` comparisons of the source are
always true and drop out. -/
def amendedEmailRule (s : String) : Bool :=
  decide (strRfind s ('@') = strFind s ('@')) &&
    decide (strFind s ('@') > 0) &&
    decide (strFind s ('.') > 0) &&
    (match charAt? s ((strFind s ('@')) + 1).toNat with
     | some c => c != ('.')
     | none => false)

theorem validEmail_getD_eq_amended (s : String) (h : (validEmail s).isSome) :
    (validEmail s).getD false = amendedEmailRule s := by
  unfold validEmail cond3 at *
  cases hc : charAt? s ((strFind s ('@')) + 1).toNat with
  | none => rw [hc] at h; exact absurd h (by simp)
  | some ch =>
    have h1 := strFind_lt_emailLen s ('@')
    have h2 := strRfind_lt_emailLen s ('.')
    simp only [hc, Option.map_some', Option.getD_some, amendedEmailRule, cond1, cond2]
    simp [h1, h2, Bool.and_assoc]

theorem castList_some_eq :
    ∀ {l l' : List (Option ℤ)}, castList l = some l' → l' = l := by
  intro l
  induction l with
  | nil =>
    intro l' h
    simp [castList] at h
    exact h
  | cons x l ih =>
    intro l' h
    unfold castList at h
    cases hx : castUInt8 x with
    | none => rw [hx] at h; exact absurd h (by simp)
    | some y =>
      rw [hx] at h
      cases hc : castList l with
      | none => rw [hc] at h; exact absurd h (by simp)
      | some ys =>
        rw [hc] at h
        have hy : y = x := by
          unfold castUInt8 at hx
          cases x with
          | none => cases hx; rfl
          | some v =>
            by_cases hv : 0 ≤ v ∧ v ≤ 255
            · simp [hv] at hx; exact hx.symm
            · simp [hv] at hx
        have := ih hc
        cases h
        rw [hy, this]

theorem zip_map_map {α β γ δ : Type} (f : α → β) (g : α → γ) (h : β × γ → δ) :
    ∀ t : List α, ((t.map f).zip (t.map g)).map h = t.map (fun a => h (f a, g a)) := by
  intro t
  induction t with
  | nil => rfl
  | cons a t ih => simp [ih]

theorem zip_self_map {α β : Type} (k : α → β) :
    ∀ t : List α, t.zip (t.map k) = t.map (fun a => (a, k a)) := by
  intro t
  induction t with
  | nil => rfl
  | cons a t ih => simp [ih]

theorem sum_map_add_nat {α : Type} (f g : α → ℕ) :
    ∀ l : List α, (l.map (fun i => f i + g i)).sum = (l.map f).sum + (l.map g).sum := by
  intro l
  induction l with
  | nil => rfl
  | cons a l ih =>
    simp [ih]
    omega

theorem sum_indicator_zero (b : ℕ) :
    ∀ l : List ℕ, (∀ i ∈ l, b ≠ i) →
      (l.map (fun i => if (b == i) = true then 1 else 0)).sum = 0 := by
  intro l
  induction l with
  | nil => intro _; rfl
  | cons a l ih =>
    intro h
    have ha : b ≠ a := h a (List.mem_cons_self a l)
    have hl := ih (fun i hi => h i (List.mem_cons_of_mem a hi))
    simp [ha]
    simpa using hl

theorem sum_indicator_one (b : ℕ) :
    ∀ n : ℕ, b < n →
      ((List.range n).map (fun i => if (b == i) = true then 1 else 0)).sum = 1 := by
  intro n
  induction n with
  | zero => intro h; omega
  | succ n ih =>
    intro h
    rw [List.range_succ, List.map_append, List.sum_append]
    by_cases hb : b < n
    · rw [ih hb]
      have hne : b ≠ n := by omega
      simp [hne]
    · have hbn : b = n := by omega
      subst hbn
      rw [sum_indicator_zero b (List.range b) (fun i hi => by
        have := List.mem_range.mp hi
        omega)]
      simp

theorem count_partition (n : ℕ) :
    ∀ bl : List ℕ, (∀ b ∈ bl, b < n) →
      ((List.range n).map (fun i => (bl.filter (fun b => b == i)).length)).sum
        = bl.length := by
  intro bl
  induction bl with
  | nil => intro _; simp
  | cons b bl ih =>
    intro h
    have hb : b < n := h b (List.mem_cons_self b bl)
    have hstep : ∀ i : ℕ,
        (((b :: bl).filter (fun x => x == i)).length)
          = (if (b == i) = true then 1 else 0) + ((bl.filter (fun x => x == i)).length) := by
      intro i
      rw [List.filter_cons]
      by_cases hbi : (b == i) = true
      · simp [hbi, Nat.add_comm]
      · simp [hbi]
    rw [List.map_congr_left (fun i _ => hstep i), sum_map_add_nat,
      sum_indicator_one b n hb, ih (fun x hx => h x (List.mem_cons_of_mem b hx))]
    simp only [List.length_cons]
    omega

theorem binIndex_lt_10 {a : ℚ} {b : ℕ} (h : binIndex a = some b) : b < 10 := by
  unfold binIndex at h
  by_cases ha : 0 ≤ a ∧ a ≤ 100
  · simp [ha] at h
    omega
  · simp [ha] at h

theorem filterMap_binIndex_length :
    ∀ l : List ℚ, (l.filterMap binIndex).length
      = (l.filter (fun a => decide (0 ≤ a) && decide (a ≤ 100))).length := by
  intro l
  induction l with
  | nil => rfl
  | cons a l ih =>
    by_cases h1 : 0 ≤ a
    · by_cases h2 : a ≤ 100
      · simp [List.filterMap_cons, List.filter_cons, binIndex, h1, h2, ih]
      · simp [List.filterMap_cons, List.filter_cons, binIndex, h1, h2, ih]
    · simp [List.filterMap_cons, List.filter_cons, binIndex, h1, ih]

theorem firstIdx?_isSome_of_mem {α : Type} [BEq α] [LawfulBEq α] {c : α} :
    ∀ {l : List α}, c ∈ l → (firstIdx? c l).isSome := by
  intro l
  induction l with
  | nil => intro h; exact absurd h (List.not_mem_nil c)
  | cons a l ih =>
    intro h
    by_cases hac : (a == c) = true
    · simp [firstIdx?, hac]
    · have hne : a ≠ c := fun he => hac (by simp [he])
      have hm : c ∈ l := by
        cases List.mem_cons.mp h with
        | inl he => exact absurd he.symm hne
        | inr hm => exact hm
      have := ih hm
      simpa [firstIdx?, hac] using this

theorem sliceBound_eq_none_iff {cols : List String} {lab : String} {sideRight : Bool} :
    sliceBound cols lab sideRight = none
      ↔ lab ∉ cols ∧ isMonoInc cols = false ∧ isMonoDec cols = false := by
  unfold sliceBound
  cases hf : firstIdx? lab cols with
  | some i =>
    simp only [hf]
    constructor
    · intro h; exact absurd h (by simp)
    · rintro ⟨hm, _, _⟩; exact absurd (firstIdx?_mem hf) hm
  | none =>
    have hm : lab ∉ cols := by
      intro hmem
      have := firstIdx?_isSome_of_mem hmem
      rw [hf] at this
      exact absurd this (by simp)
    simp only [hf]
    by_cases hinc : isMonoInc cols = true
    · simp [hinc]
    · have hinc' : isMonoInc cols = false := by
        cases hb : isMonoInc cols
        · rfl
        · exact absurd hb hinc
      by_cases hdec : isMonoDec cols = true
      · simp [hinc', hdec]
      · have hdec' : isMonoDec cols = false := by
          cases hb : isMonoDec cols
          · rfl
          · exact absurd hb hdec
        simp [hinc', hdec', hm]

theorem locSlice_eq_none_iff {cols : List String} {a b : String} :
    locSlice cols a b = none
      ↔ (a ∉ cols ∨ b ∉ cols) ∧ isMonoInc cols = false ∧ isMonoDec cols = false := by
  unfold locSlice
  cases h1 : sliceBound cols a false with
  | none =>
    simp only [h1]
    have hh := sliceBound_eq_none_iff.mp h1
    exact iff_of_true (by trivial) ⟨Or.inl hh.1, hh.2.1, hh.2.2⟩
  | some i =>
    cases h2 : sliceBound cols b true with
    | none =>
      simp only [h1, h2]
      have hh := sliceBound_eq_none_iff.mp h2
      exact iff_of_true (by trivial) ⟨Or.inr hh.1, hh.2.1, hh.2.2⟩
    | some j =>
      simp only [h1, h2]
      constructor
      · intro h; exact absurd h (by simp)
      · rintro ⟨hab, hinc, hdec⟩
        cases hab with
        | inl ha =>
          have hn : sliceBound cols a false = none :=
            sliceBound_eq_none_iff.mpr ⟨ha, hinc, hdec⟩
          rw [hn] at h1
          exact absurd h1 (by simp)
        | inr hb =>
          have hn : sliceBound cols b true = none :=
            sliceBound_eq_none_iff.mpr ⟨hb, hinc, hdec⟩
          rw [hn] at h2
          exact absurd h2 (by simp)

theorem condListDyn_ne_keyError :
    ∀ l : List Cell, condListDyn l ≠ Except.error PdError.keyError := by
  intro l
  induction l with
  | nil =>
    intro h
    simp [condListDyn] at h
  | cons c l ih =>
    intro h
    cases c with
    | num v => simp [condListDyn] at h
    | str s =>
      cases hv : validEmail s with
      | none => simp [condListDyn, hv] at h
      | some b =>
        cases hc : condListDyn l with
        | error e =>
          simp [condListDyn, hv, hc] at h
          exact ih (by rw [hc, h])
        | ok bs =>
          simp [condListDyn, hv, hc] at h

/-- A row whose age and grades are all missing: the concrete email tables
are built from it. -/
def mkRow (e : String) : Row := ⟨none, e, none, none, none, none, none⟩

/-! ### Claim theorems -/

/-- Claim C1, code evaluated at the failing input.  The claim says the
broadcast shape of `fill_na_with_mean` is derived from the table's actual
row count so the imputation holds for tables of any size; the source
instead broadcasts the row means to the hardcoded shape `(5, 100)`
(`np.broadcast_to(all_means_vector, (5, 100))`), so on a two-row table the
call raises a broadcast error (`none`) instead of returning an imputed
table. -/
theorem C1_fixed_broadcast_fails :
    fill_na_with_mean [mkRow (""), mkRow ("")] = none := by decide

/-- Claim C2 counterexample: the claimed rule requires the last `.` to sit
strictly before the final index, but the code only compares it against the
string length (always true), so the row with email `"a@b.c."` — rejected by
the claimed rule — is kept by `remove_rows_without_mail`. -/
theorem C2_trailing_dot_counterexample :
    remove_rows_without_mail [mkRow ("a@b.c.")] = some [mkRow ("a@b.c.")]
      ∧ specEmailRule ((mkRow ("a@b.c.")).email) = false := by decide

/-- Claim C2 (amended): whenever `remove_rows_without_mail` returns a table,
the kept rows are exactly those whose email has exactly one `@` at a
positive index, a first `.` at a positive index, and a character other than
`.` right after the `@`; the two strictly-before-the-last-character bounds
of the original claim are not enforced (the code compares against the
length, which always holds). -/
theorem C2_amended_filter_rule (t t' : Table)
    (h : remove_rows_without_mail t = some t') :
    t' = t.filter (fun r => amendedEmailRule r.email) := by
  have hf := remove_eq_filter h
  have hs := remove_safe h
  rw [hf]
  apply List.filter_congr
  intro r hr
  exact validEmail_getD_eq_amended r.email (hs r hr)

/-- Claim C2 witness: a concrete three-row table on which the filter keeps
exactly the rows satisfying the amended rule. -/
theorem C2_amended_filter_rule_witness :
    [mkRow ("a.b@c.com"), mkRow ("x@y.z")]
      = ([mkRow ("a.b@c.com"), mkRow ("@abc.com"), mkRow ("x@y.z")]).filter
          (fun r => amendedEmailRule r.email) :=
  C2_amended_filter_rule
    [mkRow ("a.b@c.com"), mkRow ("@abc.com"), mkRow ("x@y.z")]
    [mkRow ("a.b@c.com"), mkRow ("x@y.z")] (by decide)

/-- Claim C3 counterexample: the claim promises a scored table for every
input table, but a row whose grades are all `300` has floored mean `300`,
and the `astype('UInt8')` safe cast raises on it (`none`) instead of
returning a table. -/
theorem C3_uint8_cast_counterexample :
    score_subjects [⟨none, "", some 300, some 300, some 300, some 300, some 300⟩] 1
      = none := by
  simp [score_subjects, castList, castUInt8, rowMean, listMean, presentVals, qcells]
  norm_num

/-- Claim C3 (amended): whenever `score_subjects` returns a table (its
`UInt8` cast succeeding, as it does when every row's floored mean lies in
`[0, 255]`), each row's score is missing when its count of missing grades
exceeds `maximal_nans_per_sub` and otherwise equals the floor of the mean
of the present grades (itself missing when no grade is present). -/
theorem C3_amended_score_formula (t : Table) (m : ℕ) (out : List (Row × Option ℤ))
    (h : score_subjects t m = some out) :
    out = t.map (fun r => (r, if nanCount r > m then none else (rowMean r).map Int.floor)) := by
  unfold score_subjects at h
  cases hc : castList (t.map (fun r => (rowMean r).map Int.floor)) with
  | none => rw [hc] at h; exact absurd h (by simp)
  | some casted =>
    rw [hc] at h
    have hcast := castList_some_eq hc
    subst hcast
    cases h
    rw [zip_map_map, zip_self_map]

/-- Claim C3 witness: the spec's boundary example with
`maximal_nans_per_sub = 1`: a row `[3,3,3,3,NaN]` scores `3`, a row
`[3,3,3,NaN,NaN]` scores missing. -/
theorem C3_amended_score_formula_witness :
    [((⟨none, "", some 3, some 3, some 3, some 3, none⟩ : Row), (some 3 : Option ℤ)),
     ((⟨none, "", some 3, some 3, some 3, none, none⟩ : Row), none)]
      = ([⟨none, "", some 3, some 3, some 3, some 3, none⟩,
          ⟨none, "", some 3, some 3, some 3, none, none⟩] : Table).map
          (fun r => (r, if nanCount r > 1 then none else (rowMean r).map Int.floor)) :=
  C3_amended_score_formula
    [⟨none, "", some 3, some 3, some 3, some 3, none⟩,
     ⟨none, "", some 3, some 3, some 3, none, none⟩] 1
    [((⟨none, "", some 3, some 3, some 3, some 3, none⟩ : Row), (some 3 : Option ℤ)),
     ((⟨none, "", some 3, some 3, some 3, none, none⟩ : Row), none)]
    (by
      simp [score_subjects, castList, castUInt8, rowMean, listMean, presentVals,
        qcells, nanCount]
      norm_num)

/-- Claim C4 counterexample: a table whose single age is `150` has one
non-missing age but histogram bucket counts summing to `0`, because values
outside the fixed edges `[0, 100]` fall in no bucket. -/
theorem C4_out_of_range_age_counterexample :
    (show_age_distrib [⟨some 150, "", none, none, none, none, none⟩]).1.sum = 0
      ∧ ([(⟨some 150, "", none, none, none, none, none⟩ : Row)].filterMap
          (fun r => r.age)).length = 1 := by
  constructor
  · simp [show_age_distrib, histCounts, binIndex, List.range_succ]
    norm_num
  · simp

/-- Claim C4 (amended): for every input table the sum of the ten bucket
counts of `show_age_distrib` equals the number of non-missing ages lying in
the histogram range `[0, 100]` (NaN ages and out-of-range ages fall in no
bucket). -/
theorem C4_amended_hist_sum (t : Table) :
    (show_age_distrib t).1.sum
      = ((t.filterMap (fun r => r.age)).filter
          (fun a => decide (0 ≤ a) && decide (a ≤ 100))).length := by
  unfold show_age_distrib histCounts
  rw [count_partition 10 ((t.filterMap (fun r => r.age)).filterMap binIndex)
      (fun b hb => by
        obtain ⟨a, _, ha⟩ := List.mem_filterMap.mp hb
        exact binIndex_lt_10 ha)]
  exact filterMap_binIndex_length (t.filterMap (fun r => r.age))

/-- Claim C5: whenever `fill_na_with_mean` returns an imputed table, every
`q1..q5` cell that was present in the original row keeps its exact value at
the same position (only missing cells are overwritten). -/
theorem C5_present_values_preserved (t t' : Table) (idx : List ℕ)
    (h : fill_na_with_mean t = some (t', idx)) (i : ℕ) (r : Row)
    (hr : t.get? i = some r) :
    ∃ r', t'.get? i = some r'
      ∧ (∀ v, r.q1 = some v → r'.q1 = some v)
      ∧ (∀ v, r.q2 = some v → r'.q2 = some v)
      ∧ (∀ v, r.q3 = some v → r'.q3 = some v)
      ∧ (∀ v, r.q4 = some v → r'.q4 = some v)
      ∧ (∀ v, r.q5 = some v → r'.q5 = some v) := by
  unfold fill_na_with_mean at h
  by_cases hlen : t.length = 100 ∨ t.length = 1
  · rw [if_pos hlen] at h
    injection h with h'
    injection h' with h1 h2
    subst h1
    refine ⟨fillRow r, ?_, ?_, ?_, ?_, ?_, ?_⟩
    · rw [List.get?_map, hr]
      rfl
    · intro v hv
      show (fillRow r).q1 = some v
      simp [fillRow, fillCell, hv]
    · intro v hv
      show (fillRow r).q2 = some v
      simp [fillRow, fillCell, hv]
    · intro v hv
      show (fillRow r).q3 = some v
      simp [fillRow, fillCell, hv]
    · intro v hv
      show (fillRow r).q4 = some v
      simp [fillRow, fillCell, hv]
    · intro v hv
      show (fillRow r).q5 = some v
      simp [fillRow, fillCell, hv]
  · rw [if_neg hlen] at h
    exact absurd h (by simp)

/-- Claim C5 witness: a one-row table with grades `[2, 4, NaN, 6, 8]`; the
present grades survive the imputation unchanged. -/
theorem C5_present_values_preserved_witness :
    ∃ r', ([⟨some 30, "", some 2, some 4, some 5, some 6, some 8⟩] : Table).get? 0 = some r'
      ∧ (∀ v, (⟨some 30, "", some 2, some 4, none, some 6, some 8⟩ : Row).q1 = some v → r'.q1 = some v)
      ∧ (∀ v, (⟨some 30, "", some 2, some 4, none, some 6, some 8⟩ : Row).q2 = some v → r'.q2 = some v)
      ∧ (∀ v, (⟨some 30, "", some 2, some 4, none, some 6, some 8⟩ : Row).q3 = some v → r'.q3 = some v)
      ∧ (∀ v, (⟨some 30, "", some 2, some 4, none, some 6, some 8⟩ : Row).q4 = some v → r'.q4 = some v)
      ∧ (∀ v, (⟨some 30, "", some 2, some 4, none, some 6, some 8⟩ : Row).q5 = some v → r'.q5 = some v) :=
  C5_present_values_preserved
    [⟨some 30, "", some 2, some 4, none, some 6, some 8⟩]
    [⟨some 30, "", some 2, some 4, some 5, some 6, some 8⟩] [0]
    (by
      simp [fill_na_with_mean, fillRow, fillCell, rowMean, listMean, presentVals,
        qcells, nanCount, List.enum]
      norm_num)
    0 ⟨some 30, "", some 2, some 4, none, some 6, some 8⟩ rfl

/-- Claim C6: the email filter keeps `"a.b@c.com"` and drops `"ab@.com"`
(char after `@` is `.`), `"a@b@c.com"` (two `@`), `"@abc.com"` (`@` at
position 0) and `"abc.com"` (no `@`). -/
theorem C6_email_examples :
    remove_rows_without_mail
      [mkRow ("a.b@c.com"), mkRow ("ab@.com"), mkRow ("a@b@c.com"),
       mkRow ("@abc.com"), mkRow ("abc.com")]
      = some [mkRow ("a.b@c.com")] := by decide

/-- Claim C7: the email filter is idempotent — whenever it returns a
filtered table, running it again on that table returns the same table (all
kept rows are valid, so nothing further is removed). -/
theorem C7_filter_idempotent (t t' : Table)
    (h : remove_rows_without_mail t = some t') :
    remove_rows_without_mail t' = some t' := by
  have hf := remove_eq_filter h
  have hs := remove_safe h
  have hvalid : ∀ r ∈ t', validEmail r.email = some true := by
    intro r hr
    rw [hf] at hr
    have hmem := (List.mem_filter.mp hr).1
    have htrue := (List.mem_filter.mp hr).2
    have hsome := hs r hmem
    cases hv : validEmail r.email with
    | none => rw [hv] at hsome; exact absurd hsome (by simp)
    | some b =>
      rw [hv] at htrue
      simp at htrue
      rw [htrue]
  unfold remove_rows_without_mail
  have hcl : (condList t').isSome :=
    condList_isSome (fun r hr => by rw [hvalid r hr]; rfl)
  cases hc : condList t' with
  | none => rw [hc] at hcl; exact absurd hcl (by simp)
  | some flags =>
    simp only [hc]
    rw [condList_filter hc]
    rw [List.filter_eq_self.mpr (fun r hr => by rw [hvalid r hr]; rfl)]

/-- Claim C7 witness: a concrete two-row table; the filter's output
re-filters to itself. -/
theorem C7_filter_idempotent_witness :
    remove_rows_without_mail [mkRow ("a.b@c.com")] = some [mkRow ("a.b@c.com")] :=
  C7_filter_idempotent [mkRow ("a.b@c.com"), mkRow ("nope")] [mkRow ("a.b@c.com")]
    (by decide)

/-- Claim C8: no sequence of the four operations, in any order and of any
length, changes the stored table `self.data`: each method only reads it and
returns a fresh value. -/
theorem C8_data_unchanged (s : AnalysisState) (ops : List AnalysisOp) :
    (runOps s ops).data = s.data := by
  induction ops generalizing s with
  | nil => rfl
  | cons op ops ih =>
    have hstep : ((runOp s op).1).data = s.data := by
      cases op <;> rfl
    calc (runOps s (op :: ops)).data
        = (runOps (runOp s op).1 ops).data := rfl
      _ = ((runOp s op).1).data := ih (runOp s op).1
      _ = s.data := hstep

/-- Claim C9 counterexample: a table lacking column `q2` (but having the
slice bounds `q1` and `q5`) is claimed to make `score_subjects` fail with a
missing-column error; instead the label slice `"q1":"q5"` silently selects
the remaining columns and the call succeeds, scoring over the four present
grades. -/
theorem C9_missing_q2_counterexample :
    ("q2") ∉ (⟨[("age"), ("q1"), ("q3"), ("q4"), ("q5")],
      [[(("age"), Cell.num (some 30)), (("q1"), Cell.num (some 4)),
        (("q3"), Cell.num (some 6)), (("q4"), Cell.num (some 8)),
        (("q5"), Cell.num (some 2))]]⟩ : DynTable).cols
      ∧ score_subjects_dyn
          (⟨[("age"), ("q1"), ("q3"), ("q4"), ("q5")],
            [[(("age"), Cell.num (some 30)), (("q1"), Cell.num (some 4)),
              (("q3"), Cell.num (some 6)), (("q4"), Cell.num (some 8)),
              (("q5"), Cell.num (some 2))]]⟩ : DynTable) 1
        = Except.ok [([(("age"), Cell.num (some 30)), (("q1"), Cell.num (some 4)),
            (("q3"), Cell.num (some 6)), (("q4"), Cell.num (some 8)),
            (("q5"), Cell.num (some 2))], some 5)] := by
  constructor
  · decide
  · simp [score_subjects_dyn, locSlice, sliceBound, firstIdx?, castList, castUInt8,
      listMean, rowValsD, rowCells, cellNum, cellIsNA, nanCountD, List.lookup]
    norm_num

/-- Claim C9 (amended): construction fails exactly when the source is
unreadable or unparseable (spec-modelled `read_data`); an operation raises
a missing-column `KeyError` exactly under these conditions:
`show_age_distrib` iff `age` is absent, `remove_rows_without_mail` iff
`email` is absent, and `fill_na_with_mean` and `score_subjects` — which
subscript the grade block only through the slice bounds `q1` and `q5` —
iff a bound label is absent and the column labels are not monotonically
ordered (on a monotonic column index pandas falls back to the
`searchsorted` insertion point and raises nothing); so a table lacking
only `q2`, `q3` or `q4` raises no missing-column error in any operation. -/
theorem C9_amended_error_conditions (raw : Option DynTable) (t : DynTable) (m : ℕ) :
    ((read_data raw).isSome ↔ raw.isSome)
      ∧ ((show_age_distrib_dyn t = Except.error PdError.keyError)
          ↔ ("age") ∉ t.cols)
      ∧ ((remove_rows_without_mail_dyn t = Except.error PdError.keyError)
          ↔ ("email") ∉ t.cols)
      ∧ ((fill_na_with_mean_dyn t = Except.error PdError.keyError)
          ↔ ((("q1") ∉ t.cols ∨ ("q5") ∉ t.cols)
              ∧ isMonoInc t.cols = false ∧ isMonoDec t.cols = false))
      ∧ ((score_subjects_dyn t m = Except.error PdError.keyError)
          ↔ ((("q1") ∉ t.cols ∨ ("q5") ∉ t.cols)
              ∧ isMonoInc t.cols = false ∧ isMonoDec t.cols = false)) := by
  refine ⟨Iff.rfl, ?_, ?_, ?_, ?_⟩
  · unfold show_age_distrib_dyn getColC
    by_cases hm : ("age") ∈ t.cols
    · simp [hm]
    · simp [hm]
  · by_cases hm : ("email") ∈ t.cols
    · have hcol : getColC t ("email")
          = some (t.rows.map (fun r => (r.lookup ("email")).getD (Cell.num none))) := by
        unfold getColC
        simp [hm]
      constructor
      · intro h
        unfold remove_rows_without_mail_dyn at h
        rw [hcol] at h
        cases hc : condListDyn
            (t.rows.map (fun r => (r.lookup ("email")).getD (Cell.num none))) with
        | error e =>
          simp only [hc] at h
          injection h with he
          exact absurd (by rw [hc, he]) (condListDyn_ne_keyError _)
        | ok flags =>
          simp only [hc] at h
          exact absurd h (by simp)
      · intro h
        exact absurd hm h
    · have hcol : getColC t ("email") = none := by
        unfold getColC
        simp [hm]
      constructor
      · intro _
        exact hm
      · intro _
        unfold remove_rows_without_mail_dyn
        rw [hcol]
  · unfold fill_na_with_mean_dyn
    cases hl : locSlice t.cols ("q1") ("q5") with
    | none =>
      simp only [hl]
      exact iff_of_true (by trivial) (locSlice_eq_none_iff.mp hl)
    | some sel =>
      simp only [hl]
      constructor
      · intro h
        by_cases hlen : t.rows.length = 100 ∨ t.rows.length = 1
        · rw [if_pos hlen] at h
          exact absurd h (by simp)
        · rw [if_neg hlen] at h
          exact absurd h (by simp)
      · intro hc
        have hn := locSlice_eq_none_iff.mpr hc
        rw [hn] at hl
        exact absurd hl (by simp)
  · unfold score_subjects_dyn
    cases hl : locSlice t.cols ("q1") ("q5") with
    | none =>
      simp only [hl]
      exact iff_of_true (by trivial) (locSlice_eq_none_iff.mp hl)
    | some sel =>
      simp only [hl]
      constructor
      · intro h
        cases hcast : castList (t.rows.map
            (fun r => (listMean ((rowValsD sel r).filterMap id)).map Int.floor)) with
        | none =>
          rw [hcast] at h
          exact absurd h (by simp)
        | some casted =>
          rw [hcast] at h
          exact absurd h (by simp)
      · intro hc
        have hn := locSlice_eq_none_iff.mpr hc
        rw [hn] at hl
        exact absurd hl (by simp)

/-- Claim C10: the unguarded `email[index + 1]` read makes the filter raise
an out-of-range string-indexing error (modelled as `none`) instead of
returning a table, e.g. for an email whose only `@` is its last character,
or for an empty email string (where the missing `@` makes the code read
position 0). -/
theorem C10_index_out_of_range :
    remove_rows_without_mail [mkRow ("ab@")] = none
      ∧ remove_rows_without_mail [mkRow ("")] = none := by decide

end HW5
